import Mathlib

/-!
Verification of `src/impermeability_change.py`.

The source file defines a single function `imperv_change(urban_region)` that
builds an Earth Engine request graph: it loads the NLCD 2001 and 2011
imperviousness bands clipped to a caller-supplied region collection, subtracts
them pixelwise, masks the zero-difference pixels into an (unused) raster,
builds two indicator-times-pixel-area rasters (`diff > -999` and `diff > 0`),
sums each over the features of the region with `reduceRegions`, extracts the
first feature's sum of each with `.get(0)`, and returns their quotient.

Embedding conventions: a raster (`Image`) is a partial function from pixels to
rational values, with `none` for a masked pixel; a feature is the finite list
of the pixels its geometry covers, and the `urban_region` argument is the list
of its features (a feature collection).  The backend's datasets are a
`Backend` record holding the two imperviousness bands.  Backend arithmetic is
modelled exactly over ℚ (NLCD imperviousness values are small integers; the
claims under check are about the exact quotient-of-sums semantics, not about
rounding of IEEE doubles).  A backend evaluation with no defined value —
`.get(0)` on an empty aggregation list, or the division when the denominator
is zero, which the backend surfaces as an error/NaN rather than a number — is
modelled as `none`.
-/

namespace ImpermeabilityChange

/-- A raster pixel: an abstract location identifier together with the
physical ground area that `ee.Image.pixelArea()` reports for it. -/
structure Pixel where
  id : Nat
  area : ℚ
deriving DecidableEq, Repr

/-- A single-band raster: each pixel either carries a value or is masked. -/
def Image := Pixel → Option ℚ

/-- One feature of the region collection: the list of pixels its geometry
covers. -/
abbrev Feature := List Pixel

/-- The `urban_region` argument of `imperv_change`: a feature collection,
as consumed by `reduceRegions`. -/
abbrev Region := List Feature

/-- The backend's dataset store: the `impervious` band of
`ee.Image('USGS/NLCD/NLCD2001')` and of `ee.Image('USGS/NLCD/NLCD2011')`. -/
structure Backend where
  nlcd2001imperv : Image
  nlcd2011imperv : Image

/-- All pixels covered by the region's features (the footprint `clip`
restricts to). -/
def regionPixels (r : Region) : List Pixel :=
  r.flatten

/-- `image.clip(region)`: keep a pixel's value inside the region's footprint,
mask it outside. -/
def clip (img : Image) (r : Region) : Image :=
  fun p => if p ∈ regionPixels r then img p else none

/-- `a.subtract(b)`: pixelwise difference; masked wherever either input is
masked. -/
def subtract (a b : Image) : Image :=
  fun p =>
    match a p, b p with
    | some x, some y => some (x - y)
    | _, _ => none

/-- `img.updateMask(msk)`: a pixel keeps its value only where the mask image
has a nonzero value; it is masked where the mask is zero or itself masked. -/
def updateMask (img msk : Image) : Image :=
  fun p =>
    match msk p with
    | some m => if m = 0 then none else img p
    | none => none

/-- `img.gt(t)`: indicator raster, 1 where the value exceeds `t`, 0 where it
does not, masked where the input is masked. -/
def gt (img : Image) (t : ℚ) : Image :=
  fun p => (img p).map fun v => if t < v then 1 else 0

/-- `a.multiply(b)`: pixelwise product; masked wherever either input is
masked. -/
def multiply (a b : Image) : Image :=
  fun p =>
    match a p, b p with
    | some x, some y => some (x * y)
    | _, _ => none

/-- `ee.Image.pixelArea()`: every pixel's value is its ground area. -/
def pixelArea : Image :=
  fun p => some p.area

/-- `ee.Reducer.sum()` applied to one feature: the sum of the raster's values
over the feature's pixels, masked pixels contributing nothing. -/
def reducerSum (img : Image) (f : Feature) : ℚ :=
  (f.map fun p => (img p).getD 0).sum

/-- `img.reduceRegions(region, ee.Reducer.sum()).aggregate_array('sum')`:
one sum per feature of the collection, in order. -/
def reduceRegions (img : Image) (r : Region) : List ℚ :=
  r.map (reducerSum img)

/-- `ee.Number.divide`: the backend's division, with no defined numeric
result when the divisor is zero. -/
def divide (a b : ℚ) : Option ℚ :=
  if b = 0 then none else some (a / b)

/-! The pipeline of `imperv_change`, one definition per assignment of the
source, each parametrised by the backend state and the `urban_region`
argument. -/

/-- `nlcd_2001.select('impervious').clip( urban_region)`. -/
def nlcd_2001_imperv (be : Backend) (r : Region) : Image :=
  clip be.nlcd2001imperv r

/-- `nlcd_2011.select('impervious').clip( urban_region)`. -/
def nlcd_2011_imperv (be : Backend) (r : Region) : Image :=
  clip be.nlcd2011imperv r

/-- `imperv_difference = nlcd_2011_imperv.subtract( nlcd_2001_imperv)`. -/
def imperv_difference (be : Backend) (r : Region) : Image :=
  subtract (nlcd_2011_imperv be r) (nlcd_2001_imperv be r)

/-- `imperv_difference_masked = imperv_difference.updateMask( imperv_difference)`:
drops the zero-difference pixels.  (Computed by the source but consumed by no
later step.) -/
def imperv_difference_masked (be : Backend) (r : Region) : Image :=
  updateMask (imperv_difference be r) (imperv_difference be r)

/-- `urban_pixelarea = imperv_difference.gt(-999).multiply( ee.Image.pixelArea())`. -/
def urban_pixelarea (be : Backend) (r : Region) : Image :=
  multiply (gt (imperv_difference be r) (-999)) pixelArea

/-- `increased_imperv_pixelarea = imperv_difference.gt( 0).multiply( ee.Image.pixelArea())`. -/
def increased_imperv_pixelarea (be : Backend) (r : Region) : Image :=
  multiply (gt (imperv_difference be r) 0) pixelArea

/-- `increased_imperv_area`: the first feature's sum of
`increased_imperv_pixelarea` (`.get(0)` of the aggregated list; no value when
the collection is empty). -/
def increased_imperv_area (be : Backend) (r : Region) : Option ℚ :=
  (reduceRegions (increased_imperv_pixelarea be r) r).head?

/-- `urban_area`: the first feature's sum of `urban_pixelarea`. -/
def urban_area (be : Backend) (r : Region) : Option ℚ :=
  (reduceRegions (urban_pixelarea be r) r).head?

/-- `imperv_change(urban_region)`: resolves
`increased_imperv_area.divide( urban_area).getInfo()`. -/
def imperv_change (be : Backend) (r : Region) : Option ℚ := do
  let inc ← increased_imperv_area be r
  let tot ← urban_area be r
  divide inc tot

/-- The pipeline of `imperv_change` with the masking assignment deleted and
every remaining step repeated verbatim (the two aggregated rasters are built
from the unmasked difference, exactly as in the source). -/
def imperv_change_nomask (be : Backend) (r : Region) : Option ℚ := do
  let inc ← (reduceRegions
    (multiply (gt (subtract (clip be.nlcd2011imperv r) (clip be.nlcd2001imperv r)) 0)
      pixelArea) r).head?
  let tot ← (reduceRegions
    (multiply (gt (subtract (clip be.nlcd2011imperv r) (clip be.nlcd2001imperv r)) (-999))
      pixelArea) r).head?
  divide inc tot

/-- The behaviour described by the spec's masking sentence, for comparison
with the code: both aggregations are built from the masked difference raster,
so zero-change pixels are excluded from numerator and denominator alike. -/
def imperv_change_maskedSpec (be : Backend) (r : Region) : Option ℚ := do
  let inc ← (reduceRegions
    (multiply (gt (imperv_difference_masked be r) 0) pixelArea) r).head?
  let tot ← (reduceRegions
    (multiply (gt (imperv_difference_masked be r) (-999)) pixelArea) r).head?
  divide inc tot

/-- One client call of `imperv_change`, threaded through the backend state.
The source function assigns only function-local names and issues only read
requests (dataset loads, graph construction, one `getInfo`); it contains no
write to any name outside its own scope and no backend mutation, so a call
returns the ratio and leaves the backend state exactly as it found it. -/
def imperv_change_call (be : Backend) (r : Region) : Option ℚ × Backend :=
  (imperv_change be r, be)

/-! Spec-side area sums (spec §3 invariant): per-pixel valid-area and
increased-area contributions and their sums, stated directly from the two
indicator conditions `diff > -999` and `diff > 0` of the source. -/

/-- The valid-area contribution of one pixel: its ground area when its
difference value is defined and exceeds the `-999` sentinel, else `0`. -/
def validTerm (be : Backend) (r : Region) (p : Pixel) : ℚ :=
  (imperv_difference be r p).elim 0 fun d => if (-999 : ℚ) < d then p.area else 0

/-- The increased-area contribution of one pixel: its ground area when its
difference value is defined and positive, else `0`. -/
def incTerm (be : Backend) (r : Region) (p : Pixel) : ℚ :=
  (imperv_difference be r p).elim 0 fun d => if (0 : ℚ) < d then p.area else 0

/-- Spec §3 `total_valid_area`: summed area, over the whole region, of the
pixels with a defined difference value above the sentinel. -/
def total_valid_area (be : Backend) (r : Region) : ℚ :=
  ((regionPixels r).map (validTerm be r)).sum

/-- Spec §3 `increased_area`: summed area, over the whole region, of the
pixels whose difference is positive. -/
def increased_area (be : Backend) (r : Region) : ℚ :=
  ((regionPixels r).map (incTerm be r)).sum

/-- Valid-area sum restricted to a single feature. -/
def feature_valid_area (be : Backend) (r : Region) (f : Feature) : ℚ :=
  (f.map (validTerm be r)).sum

/-- Increased-area sum restricted to a single feature. -/
def feature_increased_area (be : Backend) (r : Region) (f : Feature) : ℚ :=
  (f.map (incTerm be r)).sum

/-! Concrete backend states used to instantiate the claims.  NLCD
imperviousness values are percentages; a pixel is addressed by its `id`. -/

/-- Pixel 0 increases (20 → 45); every other pixel decreases (30 → 10). -/
def beMixed : Backend where
  nlcd2001imperv := fun p => if p.id = 0 then some 20 else some 30
  nlcd2011imperv := fun p => if p.id = 0 then some 45 else some 10

/-- Pixel 0 increases (20 → 45); every other pixel is unchanged (30 → 30). -/
def beHalf : Backend where
  nlcd2001imperv := fun p => if p.id = 0 then some 20 else some 30
  nlcd2011imperv := fun p => if p.id = 0 then some 45 else some 30

/-- The two datasets are identical: every pixel is 30 in both years. -/
def beSame : Backend where
  nlcd2001imperv := fun _ => some 30
  nlcd2011imperv := fun _ => some 30

/-- Every pixel increases (20 → 45). -/
def beUp : Backend where
  nlcd2001imperv := fun _ => some 20
  nlcd2011imperv := fun _ => some 45

/-- Every pixel decreases (30 → 10). -/
def beDown : Backend where
  nlcd2001imperv := fun _ => some 30
  nlcd2011imperv := fun _ => some 10

/-- Every pixel drops by 1000 (1001 → 1): the difference lies below the
`-999` sentinel, so no pixel is valid. -/
def beSentinel : Backend where
  nlcd2001imperv := fun _ => some 1001
  nlcd2011imperv := fun _ => some 1

/-! Helper lemmas relating the pipeline's reductions to the spec-side sums. -/

theorem clip_eq_of_mem (img : Image) (r : Region) (p : Pixel)
    (hp : p ∈ regionPixels r) : clip img r p = img p :=
  if_pos hp

theorem mem_regionPixels_of_mem (p : Pixel) (f : Feature) (r : Region)
    (hp : p ∈ f) (hf : f ∈ r) : p ∈ regionPixels r :=
  List.mem_flatten.mpr ⟨f, hf, hp⟩

theorem imperv_difference_eq_of_mem (be : Backend) (r : Region) (p : Pixel)
    (hp : p ∈ regionPixels r) :
    imperv_difference be r p = subtract be.nlcd2011imperv be.nlcd2001imperv p := by
  unfold imperv_difference nlcd_2011_imperv nlcd_2001_imperv subtract
  rw [clip_eq_of_mem _ _ _ hp, clip_eq_of_mem _ _ _ hp]

theorem urban_pixelarea_getD (be : Backend) (r : Region) (p : Pixel) :
    (urban_pixelarea be r p).getD 0 = validTerm be r p := by
  unfold urban_pixelarea multiply gt pixelArea validTerm
  cases imperv_difference be r p with
  | none => rfl
  | some d =>
    by_cases h : (-999 : ℚ) < d <;> simp [h]

theorem increased_pixelarea_getD (be : Backend) (r : Region) (p : Pixel) :
    (increased_imperv_pixelarea be r p).getD 0 = incTerm be r p := by
  unfold increased_imperv_pixelarea multiply gt pixelArea incTerm
  cases imperv_difference be r p with
  | none => rfl
  | some d =>
    by_cases h : (0 : ℚ) < d <;> simp [h]

theorem reducerSum_urban (be : Backend) (r : Region) (f : Feature) :
    reducerSum (urban_pixelarea be r) f = feature_valid_area be r f := by
  unfold reducerSum feature_valid_area
  have h : (fun p => (urban_pixelarea be r p).getD 0) = validTerm be r :=
    funext fun p => urban_pixelarea_getD be r p
  rw [h]

theorem reducerSum_increased (be : Backend) (r : Region) (f : Feature) :
    reducerSum (increased_imperv_pixelarea be r) f = feature_increased_area be r f := by
  unfold reducerSum feature_increased_area
  have h : (fun p => (increased_imperv_pixelarea be r p).getD 0) = incTerm be r :=
    funext fun p => increased_pixelarea_getD be r p
  rw [h]

theorem imperv_change_nil (be : Backend) : imperv_change be [] = none :=
  rfl

theorem imperv_change_cons (be : Backend) (f : Feature) (rest : List Feature) :
    imperv_change be (f :: rest) =
      divide (feature_increased_area be (f :: rest) f)
        (feature_valid_area be (f :: rest) f) := by
  show divide (reducerSum (increased_imperv_pixelarea be (f :: rest)) f)
      (reducerSum (urban_pixelarea be (f :: rest)) f) = _
  rw [reducerSum_increased, reducerSum_urban]

theorem validTerm_congr (be : Backend) (r r' : Region) (p : Pixel)
    (h : p ∈ regionPixels r) (h' : p ∈ regionPixels r') :
    validTerm be r p = validTerm be r' p := by
  unfold validTerm
  rw [imperv_difference_eq_of_mem be r p h, imperv_difference_eq_of_mem be r' p h']

theorem incTerm_congr (be : Backend) (r r' : Region) (p : Pixel)
    (h : p ∈ regionPixels r) (h' : p ∈ regionPixels r') :
    incTerm be r p = incTerm be r' p := by
  unfold incTerm
  rw [imperv_difference_eq_of_mem be r p h, imperv_difference_eq_of_mem be r' p h']

/-! Claim theorems. -/

/-- Claim C1, counterexample: on a region collection of two one-pixel
features (pixel 0 increases, area 1; pixel 1 decreases, area 2) the function
returns a defined result, `1`, but the quotient of the increased-area and
valid-area sums taken over the whole region is `1/3`, so the returned value
is not `increased_area / total_valid_area` with the sums ranging over the
region. -/
theorem region_wide_ratio_counterexample :
    (imperv_change beMixed [[⟨0, 1⟩], [⟨1, 2⟩]]).isSome = true ∧
      imperv_change beMixed [[⟨0, 1⟩], [⟨1, 2⟩]] ≠
        some (increased_area beMixed [[⟨0, 1⟩], [⟨1, 2⟩]] /
          total_valid_area beMixed [[⟨0, 1⟩], [⟨1, 2⟩]]) := by
  norm_num [imperv_change, increased_imperv_area, urban_area, reduceRegions, reducerSum,
    urban_pixelarea, increased_imperv_pixelarea, imperv_difference, nlcd_2011_imperv,
    nlcd_2001_imperv, clip, subtract, multiply, gt, pixelArea, regionPixels, divide,
    increased_area, total_valid_area, incTerm, validTerm, beMixed,
    Pixel.mk.injEq, List.mem_cons]

/-- Claim C1, amended: whenever the first feature's valid-area sum is
non-zero, `imperv_change` returns `increased_area / total_valid_area`, where
both sums range over the first feature of the region collection (the areas of
the other features do not enter the ratio). -/
theorem imperv_change_eq_first_feature_ratio (be : Backend) (f : Feature)
    (rest : List Feature) (hV : feature_valid_area be (f :: rest) f ≠ 0) :
    imperv_change be (f :: rest) =
      some (feature_increased_area be (f :: rest) f /
        feature_valid_area be (f :: rest) f) := by
  rw [imperv_change_cons]
  unfold divide
  rw [if_neg hV]

/-- Witness for C1's amended theorem at a one-pixel region where the pixel
increases. -/
theorem imperv_change_eq_first_feature_ratio_witness :
    feature_valid_area beUp [[⟨0, 1⟩]] [⟨0, 1⟩] ≠ 0 ∧
      imperv_change beUp [[⟨0, 1⟩]] =
        some (feature_increased_area beUp [[⟨0, 1⟩]] [⟨0, 1⟩] /
          feature_valid_area beUp [[⟨0, 1⟩]] [⟨0, 1⟩]) := by
  have hV : feature_valid_area beUp [[⟨0, 1⟩]] [⟨0, 1⟩] ≠ 0 := by
    norm_num [feature_valid_area, validTerm, imperv_difference, nlcd_2011_imperv,
      nlcd_2001_imperv, clip, subtract, regionPixels, beUp, Pixel.mk.injEq, List.mem_cons]
  exact ⟨hV, imperv_change_eq_first_feature_ratio beUp [⟨0, 1⟩] [] hV⟩

/-- Claim C4: `imperv_difference_masked` feeds no later step — the pipeline
with the masking assignment deleted computes the same function as
`imperv_change` on every backend state and region. -/
theorem imperv_change_eq_nomask (be : Backend) (r : Region) :
    imperv_change be r = imperv_change_nomask be r :=
  rfl

/-- Claim C9: on a region collection with more than one feature, only the
first feature's sums reach the ratio — the result coincides with the result
on the collection holding the first feature alone, whatever the remaining
features contain. -/
theorem only_first_feature_counted (be : Backend) (f : Feature)
    (rest : List Feature) :
    imperv_change be (f :: rest) = imperv_change be [f] := by
  rw [imperv_change_cons, imperv_change_cons]
  have hv : feature_valid_area be (f :: rest) f = feature_valid_area be [f] f := by
    unfold feature_valid_area
    refine congrArg List.sum (List.map_congr_left fun p hp => ?_)
    exact validTerm_congr be _ _ p
      (mem_regionPixels_of_mem p f _ hp (List.mem_cons_self f rest))
      (mem_regionPixels_of_mem p f [f] hp (List.mem_cons_self f []))
  have hi : feature_increased_area be (f :: rest) f = feature_increased_area be [f] f := by
    unfold feature_increased_area
    refine congrArg List.sum (List.map_congr_left fun p hp => ?_)
    exact incTerm_congr be _ _ p
      (mem_regionPixels_of_mem p f _ hp (List.mem_cons_self f rest))
      (mem_regionPixels_of_mem p f [f] hp (List.mem_cons_self f []))
  rw [hv, hi]

/-- Claim C10: a call of `imperv_change` leaves the backend state unchanged,
and a second call against that state returns the same ratio as the first —
nothing accumulates across calls. -/
theorem imperv_change_stateless (be : Backend) (r : Region) :
    (imperv_change_call be r).2 = be ∧
      (imperv_change_call (imperv_change_call be r).2 r).1 =
        (imperv_change_call be r).1 :=
  ⟨rfl, rfl⟩

/-- Claim C2, counterexample: a one-feature region of two pixels, one
increased (area 1) and one with zero difference (area 1).  The code returns
`1/2`, counting the zero-change pixel's area in the denominator, whereas the
pipeline that excludes zero-change pixels from every aggregation (the
behaviour the claim describes) returns `1`. -/
theorem zero_diff_pixel_aggregated_counterexample :
    imperv_change beHalf [[⟨0, 1⟩, ⟨1, 1⟩]] = some (1 / 2) ∧
      imperv_change_maskedSpec beHalf [[⟨0, 1⟩, ⟨1, 1⟩]] = some 1 ∧
      imperv_change beHalf [[⟨0, 1⟩, ⟨1, 1⟩]] ≠
        imperv_change_maskedSpec beHalf [[⟨0, 1⟩, ⟨1, 1⟩]] := by
  have h0 : imperv_difference beHalf [[⟨0, 1⟩, ⟨1, 1⟩]] ⟨0, 1⟩ = some 25 := by
    norm_num [imperv_difference, nlcd_2011_imperv, nlcd_2001_imperv, clip, subtract,
      regionPixels, beHalf, Pixel.mk.injEq, List.mem_cons]
  have h1 : imperv_difference beHalf [[⟨0, 1⟩, ⟨1, 1⟩]] ⟨1, 1⟩ = some 0 := by
    norm_num [imperv_difference, nlcd_2011_imperv, nlcd_2001_imperv, clip, subtract,
      regionPixels, beHalf, Pixel.mk.injEq, List.mem_cons]
  norm_num [imperv_change, imperv_change_maskedSpec, increased_imperv_area, urban_area,
    reduceRegions, reducerSum, urban_pixelarea, increased_imperv_pixelarea,
    imperv_difference_masked, updateMask, multiply, gt, pixelArea, divide, h0, h1]

/-- Claim C2, amended: a zero-difference pixel is masked out of
`imperv_difference_masked`, but that raster feeds no aggregation; the pixel
contributes nothing to the increased-area sum yet contributes its full area
to the valid-area sum of the returned ratio. -/
theorem zero_diff_pixel_denominator_only (be : Backend) (r : Region) (p : Pixel)
    (h : imperv_difference be r p = some 0) :
    imperv_difference_masked be r p = none ∧
      incTerm be r p = 0 ∧ validTerm be r p = p.area := by
  unfold imperv_difference_masked updateMask incTerm validTerm
  rw [h]
  norm_num

/-- Witness for C2's amended theorem at a concrete zero-change pixel. -/
theorem zero_diff_pixel_denominator_only_witness :
    imperv_difference beSame [[⟨0, 2⟩]] ⟨0, 2⟩ = some 0 ∧
      (imperv_difference_masked beSame [[⟨0, 2⟩]] ⟨0, 2⟩ = none ∧
        incTerm beSame [[⟨0, 2⟩]] ⟨0, 2⟩ = 0 ∧
        validTerm beSame [[⟨0, 2⟩]] ⟨0, 2⟩ = (⟨0, 2⟩ : Pixel).area) := by
  have h : imperv_difference beSame [[⟨0, 2⟩]] ⟨0, 2⟩ = some 0 := by
    norm_num [imperv_difference, nlcd_2011_imperv, nlcd_2001_imperv, clip, subtract,
      regionPixels, beSame, Pixel.mk.injEq, List.mem_cons]
  exact ⟨h, zero_diff_pixel_denominator_only beSame [[⟨0, 2⟩]] ⟨0, 2⟩ h⟩

/-- Claim C3: whenever every pixel area of the region is nonnegative and
`imperv_change` returns a value, that value lies in `[0, 1]`: every pixel
counted by the `diff > 0` indicator is also counted by the `diff > -999`
indicator, so the numerator sum is at most the denominator sum. -/
theorem imperv_change_in_unit_interval (be : Backend) (r : Region) (q : ℚ)
    (harea : ∀ f ∈ r, ∀ p ∈ f, 0 ≤ p.area)
    (hq : imperv_change be r = some q) : 0 ≤ q ∧ q ≤ 1 := by
  match r with
  | [] =>
    rw [imperv_change_nil] at hq
    exact Option.noConfusion hq
  | f :: rest =>
    rw [imperv_change_cons] at hq
    unfold divide at hq
    by_cases hV : feature_valid_area be (f :: rest) f = 0
    · rw [if_pos hV] at hq
      exact Option.noConfusion hq
    · rw [if_neg hV] at hq
      injection hq with hq'
      have hI0 : 0 ≤ feature_increased_area be (f :: rest) f := by
        unfold feature_increased_area
        apply List.sum_nonneg
        intro x hx
        obtain ⟨p, hp, rfl⟩ := List.mem_map.mp hx
        have hpa : 0 ≤ p.area := harea f (List.mem_cons_self f rest) p hp
        unfold incTerm
        cases imperv_difference be (f :: rest) p with
        | none => exact le_refl 0
        | some d =>
          by_cases hd : (0 : ℚ) < d
          · rw [Option.elim_some, if_pos hd]; exact hpa
          · rw [Option.elim_some, if_neg hd]
      have hIV : feature_increased_area be (f :: rest) f ≤
          feature_valid_area be (f :: rest) f := by
        unfold feature_increased_area feature_valid_area
        apply List.sum_le_sum
        intro p hp
        have hpa : 0 ≤ p.area := harea f (List.mem_cons_self f rest) p hp
        unfold incTerm validTerm
        cases imperv_difference be (f :: rest) p with
        | none => exact le_refl 0
        | some d =>
          rw [Option.elim_some, Option.elim_some]
          by_cases hd : (0 : ℚ) < d
          · rw [if_pos hd, if_pos (by linarith : (-999 : ℚ) < d)]
          · rw [if_neg hd]
            by_cases hd' : (-999 : ℚ) < d
            · rw [if_pos hd']; exact hpa
            · rw [if_neg hd']
      have hVpos : 0 < feature_valid_area be (f :: rest) f :=
        lt_of_le_of_ne (le_trans hI0 hIV) (Ne.symm hV)
      constructor
      · rw [← hq']
        exact div_nonneg hI0 (le_of_lt hVpos)
      · rw [← hq']
        exact (div_le_one hVpos).mpr hIV

/-- Witness for C3 at a one-pixel region whose pixel increases: the returned
ratio is 1, which lies in the unit interval. -/
theorem imperv_change_in_unit_interval_witness : 0 ≤ (1 : ℚ) ∧ (1 : ℚ) ≤ 1 :=
  imperv_change_in_unit_interval beUp [[⟨0, 1⟩]] 1
    (by
      intro f hf p hp
      rw [List.mem_singleton] at hf
      subst hf
      rw [List.mem_singleton] at hp
      subst hp
      norm_num)
    (by
      norm_num [imperv_change, increased_imperv_area, urban_area, reduceRegions,
        reducerSum, urban_pixelarea, increased_imperv_pixelarea, imperv_difference,
        nlcd_2011_imperv, nlcd_2001_imperv, clip, subtract, multiply, gt, pixelArea,
        regionPixels, divide, beUp, Pixel.mk.injEq, List.mem_cons])

/-- Claim C5: when no pixel of the region has a difference value above the
`-999` sentinel, the valid-area sum the function divides by is zero and the
backend's division has no defined result; `imperv_change` contains no guard
or distinct domain error, so that undefined result is what the caller
receives. -/
theorem zero_valid_area_division_undefined (be : Backend) (r : Region)
    (h : ∀ p ∈ regionPixels r, ∀ d, imperv_difference be r p = some d → d ≤ -999) :
    imperv_change be r = none := by
  match r with
  | [] => rfl
  | f :: rest =>
    rw [imperv_change_cons]
    have hV : feature_valid_area be (f :: rest) f = 0 := by
      unfold feature_valid_area
      apply List.sum_eq_zero
      intro x hx
      obtain ⟨p, hp, rfl⟩ := List.mem_map.mp hx
      have hpr : p ∈ regionPixels (f :: rest) :=
        mem_regionPixels_of_mem p f _ hp (List.mem_cons_self f rest)
      unfold validTerm
      cases hdiff : imperv_difference be (f :: rest) p with
      | none => rfl
      | some d =>
        have hd := h p hpr d hdiff
        rw [Option.elim_some, if_neg (by linarith : ¬(-999 : ℚ) < d)]
    rw [hV]
    unfold divide
    rw [if_pos rfl]

/-- Witness for C5: a one-pixel region whose pixel drops by 1000, below the
sentinel; the call yields no value. -/
theorem zero_valid_area_division_undefined_witness :
    imperv_change beSentinel [[⟨0, 1⟩]] = none :=
  zero_valid_area_division_undefined beSentinel [[⟨0, 1⟩]]
    (by
      intro p hp d hd
      have hp0 : p = ⟨0, 1⟩ := by simpa [regionPixels] using hp
      subst hp0
      have hdiff : imperv_difference beSentinel [[⟨0, 1⟩]] ⟨0, 1⟩ = some (-1000) := by
        norm_num [imperv_difference, nlcd_2011_imperv, nlcd_2001_imperv, clip, subtract,
          regionPixels, beSentinel, Pixel.mk.injEq, List.mem_cons]
      rw [hdiff] at hd
      injection hd with hd'
      rw [← hd']
      norm_num)

/-- Claim C6: on a one-feature region of two pixels where the first pixel's
imperviousness rose from `y0` to `y1` (area `A1`) and the second is unchanged
at `z` (area `A2`), the `> -999` check counts the unchanged pixel in the
denominator while the `> 0` check excludes it from the numerator, and the
result is `A1 / (A1 + A2)`. -/
theorem two_pixel_increased_unchanged_ratio (a1 a2 y0 y1 z : ℚ)
    (hinc : y0 < y1) (hsum : a1 + a2 ≠ 0) :
    imperv_change
      { nlcd2001imperv := fun p => if p.id = 0 then some y0 else some z,
        nlcd2011imperv := fun p => if p.id = 0 then some y1 else some z }
      [[⟨0, a1⟩, ⟨1, a2⟩]] = some (a1 / (a1 + a2)) := by
  have hd0 : (0 : ℚ) < y1 - y0 := sub_pos.mpr hinc
  have hd9 : (-999 : ℚ) < y1 - y0 := by linarith
  rw [imperv_change_cons]
  norm_num [feature_increased_area, feature_valid_area, incTerm, validTerm,
    imperv_difference, nlcd_2011_imperv, nlcd_2001_imperv, clip, subtract,
    regionPixels, List.mem_cons, Pixel.mk.injEq, divide, hd0, hd9, hsum, sub_self]

/-- Witness for C6 with `A1 = 3`, `A2 = 5`, values 20 → 45 and 30 → 30: the
ratio is `3 / 8`. -/
theorem two_pixel_increased_unchanged_ratio_witness :
    (20 : ℚ) < 45 ∧ (3 : ℚ) + 5 ≠ 0 ∧
      imperv_change
        { nlcd2001imperv := fun p => if p.id = 0 then some 20 else some 30,
          nlcd2011imperv := fun p => if p.id = 0 then some 45 else some 30 }
        [[⟨0, 3⟩, ⟨1, 5⟩]] = some (3 / (3 + 5)) :=
  ⟨by norm_num, by norm_num,
    two_pixel_increased_unchanged_ratio 3 5 20 45 30 (by norm_num) (by norm_num)⟩

/-- Claim C7, counterexample: a region whose two datasets are identical
(every difference inside the region is `some 0`) but whose first feature is
empty.  The increased-area sum over the first feature is zero, yet the
valid-area sum is also zero, so the division has no defined result and the
call does not return `0.0`. -/
theorem identical_rasters_counterexample :
    beSame.nlcd2001imperv = beSame.nlcd2011imperv ∧
      (∀ p ∈ regionPixels [[], [⟨1, 1⟩]],
        imperv_difference beSame [[], [⟨1, 1⟩]] p = some 0) ∧
      imperv_change beSame [[], [⟨1, 1⟩]] = none ∧
      imperv_change beSame [[], [⟨1, 1⟩]] ≠ some 0 := by
  refine ⟨rfl, ?_, ?_, ?_⟩
  · intro p hp
    have hp1 : p = ⟨1, 1⟩ := by simpa [regionPixels] using hp
    subst hp1
    norm_num [imperv_difference, nlcd_2011_imperv, nlcd_2001_imperv, clip, subtract,
      regionPixels, beSame, Pixel.mk.injEq, List.mem_cons]
  · norm_num [imperv_change, increased_imperv_area, urban_area, reduceRegions,
      reducerSum, divide]
  · have hnone : imperv_change beSame [[], [⟨1, 1⟩]] = none := by
      norm_num [imperv_change, increased_imperv_area, urban_area, reduceRegions,
        reducerSum, divide]
    rw [hnone]
    exact fun h => Option.noConfusion h

/-- Claim C7, amended: when every pixel of the region has difference zero and
the first feature's valid-area sum is non-zero, the increased-area sum over
the whole region is `0` and `imperv_change` returns `0`. -/
theorem identical_rasters_ratio_zero (be : Backend) (f : Feature)
    (rest : List Feature)
    (hdiff : ∀ p ∈ regionPixels (f :: rest),
      imperv_difference be (f :: rest) p = some 0)
    (hV : feature_valid_area be (f :: rest) f ≠ 0) :
    increased_area be (f :: rest) = 0 ∧
      imperv_change be (f :: rest) = some 0 := by
  have hInc : ∀ p ∈ regionPixels (f :: rest), incTerm be (f :: rest) p = 0 := by
    intro p hp
    unfold incTerm
    rw [hdiff p hp]
    norm_num
  constructor
  · unfold increased_area
    apply List.sum_eq_zero
    intro x hx
    obtain ⟨p, hp, rfl⟩ := List.mem_map.mp hx
    exact hInc p hp
  · rw [imperv_change_cons]
    have hI : feature_increased_area be (f :: rest) f = 0 := by
      unfold feature_increased_area
      apply List.sum_eq_zero
      intro x hx
      obtain ⟨p, hp, rfl⟩ := List.mem_map.mp hx
      exact hInc p (mem_regionPixels_of_mem p f _ hp (List.mem_cons_self f rest))
    rw [hI]
    unfold divide
    rw [if_neg hV, zero_div]

/-- Witness for C7's amended theorem at a one-pixel region with identical
datasets. -/
theorem identical_rasters_ratio_zero_witness :
    (∀ p ∈ regionPixels [[⟨0, 1⟩]],
        imperv_difference beSame [[⟨0, 1⟩]] p = some 0) ∧
      feature_valid_area beSame [[⟨0, 1⟩]] [⟨0, 1⟩] ≠ 0 ∧
      (increased_area beSame [[⟨0, 1⟩]] = 0 ∧
        imperv_change beSame [[⟨0, 1⟩]] = some 0) := by
  have hdiff : ∀ p ∈ regionPixels [[⟨0, 1⟩]],
      imperv_difference beSame [[⟨0, 1⟩]] p = some 0 := by
    intro p hp
    have hp0 : p = ⟨0, 1⟩ := by simpa [regionPixels] using hp
    subst hp0
    norm_num [imperv_difference, nlcd_2011_imperv, nlcd_2001_imperv, clip, subtract,
      regionPixels, beSame, Pixel.mk.injEq, List.mem_cons]
  have hV : feature_valid_area beSame [[⟨0, 1⟩]] [⟨0, 1⟩] ≠ 0 := by
    norm_num [feature_valid_area, validTerm, imperv_difference, nlcd_2011_imperv,
      nlcd_2001_imperv, clip, subtract, regionPixels, beSame, Pixel.mk.injEq,
      List.mem_cons]
  exact ⟨hdiff, hV, identical_rasters_ratio_zero beSame [⟨0, 1⟩] [] hdiff hV⟩

/-- Claim C8: a one-pixel region returns 1 when the pixel's imperviousness
rose (20 → 45, difference 25) and 0 when it fell (30 → 10, difference −20),
for any non-zero pixel area `a`. -/
theorem single_pixel_ratio_one_and_zero (a : ℚ) (ha : a ≠ 0) :
    imperv_change beUp [[⟨0, a⟩]] = some 1 ∧
      imperv_change beDown [[⟨0, a⟩]] = some 0 := by
  constructor
  · rw [imperv_change_cons]
    norm_num [feature_increased_area, feature_valid_area, incTerm, validTerm,
      imperv_difference, nlcd_2011_imperv, nlcd_2001_imperv, clip, subtract,
      regionPixels, List.mem_cons, Pixel.mk.injEq, divide, beUp, ha, div_self ha]
  · rw [imperv_change_cons]
    norm_num [feature_increased_area, feature_valid_area, incTerm, validTerm,
      imperv_difference, nlcd_2011_imperv, nlcd_2001_imperv, clip, subtract,
      regionPixels, List.mem_cons, Pixel.mk.injEq, divide, beDown, ha]

/-- Witness for C8 at pixel area 1. -/
theorem single_pixel_ratio_one_and_zero_witness :
    (1 : ℚ) ≠ 0 ∧
      (imperv_change beUp [[⟨0, 1⟩]] = some 1 ∧
        imperv_change beDown [[⟨0, 1⟩]] = some 0) :=
  ⟨by norm_num, single_pixel_ratio_one_and_zero 1 (by norm_num)⟩

end ImpermeabilityChange
